import Mathlib

/-!
Verification of the multilang-translator core (`src/app.py`).

A shallow embedding, in Lean 4, of the core logic of `src/app.py`:

* Python string helpers (`str.strip`, slicing) used by the code;
* the in-memory TTL cache `CACHE` (`_cache_get` / `_cache_set`), modelled as an
  association list in insertion order — Python 3.7+ dicts iterate keys in
  insertion order and keys are unique, so popping the first `cutoff` keys is
  dropping the first `cutoff` entries;
* the cache-key fingerprint `_make_cache_key` (canonical `json.dumps` with
  `sort_keys=True, ensure_ascii=False`, hashed with SHA-256);
* `verify_line_signature` (HMAC-SHA256 + base64 + equality comparison);
* the translation orchestrator `translate_core` and the `/translate` route's
  input handling, with the provider response modelled as the parse outcome
  (`Option PyObj`) of `json.loads` on the provider's raw text;
* `reply_to_line` (outbound reply; the network call is modelled by a boolean
  outcome parameter, the constructed payload is reified).

Time is modelled by `ℚ` (the code uses `time.time()`); environment lookups
are `Option String` parameters.
-/

namespace MultilangTranslator

/-! ## Python string helpers -/

/-- The characters Python's `str.strip()` removes. -/
def isPySpace (c : Char) : Bool :=
  c = ' ' || c = '\t' || c = '\n' || c = '\r' || c = '\x0b' || c = '\x0c'

/-- Python `s.strip()`. -/
def pyStrip (s : String) : String :=
  String.mk (((s.data.dropWhile isPySpace).reverse.dropWhile isPySpace).reverse)

/-- Python `s.lower()` (ASCII case folding suffices for language codes). -/
def pyLower (s : String) : String :=
  String.mk (s.data.map Char.toLower)

/-- Python `s[:n]` (slicing counts code points, as does `List.take` on `data`). -/
def pyTake (n : Nat) (s : String) : String :=
  String.mk (s.data.take n)

/-! ## Python dict as an association list (insertion order, unique keys) -/

/-- `d.get(k)` on a Python dict modelled as an insertion-ordered assoc list. -/
def dictFind? {β : Type _} (d : List (String × β)) (k : String) : Option β :=
  (d.find? (fun p => p.1 == k)).map (fun p => p.2)

/-- `d[k] = v`: overwrite in place when the key exists (dict keys are unique,
so the first hit is the entry), else append at the end. -/
def dictInsert {β : Type _} : List (String × β) → String → β → List (String × β)
  | [], k, v => [(k, v)]
  | p :: d, k, v => if p.1 = k then (k, v) :: d else p :: dictInsert d k v

/-- `d.pop(k, None)`: remove the key. -/
def dictErase {β : Type _} (d : List (String × β)) (k : String) :
    List (String × β) :=
  d.filter (fun p => !(p.1 == k))

/-! ## The TTL cache (`CACHE`, `_cache_get`, `_cache_set`) -/

/-- `CACHE : {cache_key: (expires_at, payload)}` in insertion order. -/
abbrev CacheState (α : Type _) := List (String × (ℚ × α))

/--
`_cache_get` (src/app.py:44-52): absent keys and entries whose `expires_at`
has passed read as `none`; an expired entry is popped as a side effect, so the
updated store is returned alongside the read value.
-/
def _cache_get {α : Type _} (cache : CacheState α) (key : String) (now : ℚ) :
    Option α × CacheState α :=
  match dictFind? cache key with
  | none => (none, cache)
  | some (expires_at, payload) =>
    if expires_at ≤ now then (none, dictErase cache key)
    else (some payload, cache)

/-- `int(CACHE_MAX_ITEMS * 0.1) or 1` (src/app.py:61), i.e. one tenth of the
capacity rounded down, but at least 1. -/
def evictCutoff (maxItems : Nat) : Nat :=
  if maxItems / 10 = 0 then 1 else maxItems / 10

/--
`_cache_set` (src/app.py:55-65): no-op when the configured TTL is ≤ 0;
when the store holds at least `maxItems` entries, pop the first
`evictCutoff maxItems` keys (in insertion order) before inserting.
-/
def _cache_set {α : Type _} (maxItems : Nat) (ttl : Int) (cache : CacheState α)
    (key : String) (payload : α) (now : ℚ) : CacheState α :=
  if ttl ≤ 0 then cache
  else
    let cache1 := if maxItems ≤ cache.length then cache.drop (evictCutoff maxItems)
      else cache
    dictInsert cache1 key (now + (ttl : ℚ), payload)

/-! ## SHA-256 (as used by `hashlib.sha256` and `hmac.new(..., hashlib.sha256)`)

Bytes are `Nat`s below 256, machine words are `Nat`s reduced mod `2^32`. -/

/-- Truncate to a 32-bit word. -/
def w32 (x : Nat) : Nat := x % 4294967296

/-- 32-bit right rotation. -/
def rotr32 (n x : Nat) : Nat := w32 ((x >>> n) ||| (x <<< (32 - n)))

/-- 32-bit complement. -/
def bnot32 (x : Nat) : Nat := x ^^^ 4294967295

def bigS0 (x : Nat) : Nat := rotr32 2 x ^^^ rotr32 13 x ^^^ rotr32 22 x

def bigS1 (x : Nat) : Nat := rotr32 6 x ^^^ rotr32 11 x ^^^ rotr32 25 x

def smallS0 (x : Nat) : Nat := rotr32 7 x ^^^ rotr32 18 x ^^^ (x >>> 3)

def smallS1 (x : Nat) : Nat := rotr32 17 x ^^^ rotr32 19 x ^^^ (x >>> 10)

def chF (e f g : Nat) : Nat := (e &&& f) ^^^ (bnot32 e &&& g)

def majF (a b c : Nat) : Nat := (a &&& b) ^^^ (a &&& c) ^^^ (b &&& c)

/-- The eight 32-bit words of SHA-256 working state. -/
structure HState where
  a : Nat
  b : Nat
  c : Nat
  d : Nat
  e : Nat
  f : Nat
  g : Nat
  h : Nat

/-- The 64 SHA-256 round constants (FIPS 180-4 §4.2.2, written in decimal). -/
def sha256K : List Nat :=
  [1116352408, 1899447441, 3049323471, 3921009573, 961987163, 1508970993,
   2453635748, 2870763221, 3624381080, 310598401, 607225278, 1426881987,
   1925078388, 2162078206, 2614888103, 3248222580, 3835390401, 4022224774,
   264347078, 604807628, 770255983, 1249150122, 1555081692, 1996064986,
   2554220882, 2821834349, 2952996808, 3210313671, 3336571891, 3584528711,
   113926993, 338241895, 666307205, 773529912, 1294757372, 1396182291,
   1695183700, 1986661051, 2177026350, 2456956037, 2730485921, 2820302411,
   3259730800, 3345764771, 3516065817, 3600352804, 4094571909, 275423344,
   430227734, 506948616, 659060556, 883997877, 958139571, 1322822218,
   1537002063, 1747873779, 1955562222, 2024104815, 2227730452, 2361852424,
   2428436474, 2756734187, 3204031479, 3329325298]

/-- The SHA-256 initial hash value (FIPS 180-4 §5.3.3, in decimal). -/
def sha256Init : HState :=
  ⟨1779033703, 3144134277, 1013904242, 2773480762,
   1359893119, 2600822924, 528734635, 1541459225⟩

/-- Sliding window of the last 16 words of the message schedule. -/
structure W16 where
  w0 : Nat
  w1 : Nat
  w2 : Nat
  w3 : Nat
  w4 : Nat
  w5 : Nat
  w6 : Nat
  w7 : Nat
  w8 : Nat
  w9 : Nat
  w10 : Nat
  w11 : Nat
  w12 : Nat
  w13 : Nat
  w14 : Nat
  w15 : Nat

def sha256Round (st : HState) (k w : Nat) : HState :=
  let t1 := w32 (st.h + bigS1 st.e + chF st.e st.f st.g + k + w)
  let t2 := w32 (bigS0 st.a + majF st.a st.b st.c)
  ⟨w32 (t1 + t2), st.a, st.b, st.c, w32 (st.d + t1), st.e, st.f, st.g⟩

/-- `w[i] = σ1(w[i-2]) + w[i-7] + σ0(w[i-15]) + w[i-16]` on the window. -/
def nextW (w : W16) : Nat := w32 (smallS1 w.w14 + w.w9 + smallS0 w.w1 + w.w0)

def shiftW (w : W16) (nw : Nat) : W16 :=
  ⟨w.w1, w.w2, w.w3, w.w4, w.w5, w.w6, w.w7, w.w8,
   w.w9, w.w10, w.w11, w.w12, w.w13, w.w14, w.w15, nw⟩

/-- The last 48 words of the message schedule. -/
def extendWords : Nat → W16 → List Nat
  | 0, _ => []
  | n + 1, w =>
    let nw := nextW w
    nw :: extendWords n (shiftW w nw)

/-- Big-endian packing of bytes into 32-bit words. -/
def bytesToWords : List Nat → List Nat
  | b0 :: b1 :: b2 :: b3 :: rest =>
    (((b0 * 256 + b1) * 256 + b2) * 256 + b3) :: bytesToWords rest
  | _ => []

def windowOf (ws : List Nat) : W16 :=
  ⟨ws.getD 0 0, ws.getD 1 0, ws.getD 2 0, ws.getD 3 0,
   ws.getD 4 0, ws.getD 5 0, ws.getD 6 0, ws.getD 7 0,
   ws.getD 8 0, ws.getD 9 0, ws.getD 10 0, ws.getD 11 0,
   ws.getD 12 0, ws.getD 13 0, ws.getD 14 0, ws.getD 15 0⟩

/-- Run the 64 rounds, consuming constants and schedule words in step. -/
def roundsAll : HState → List Nat → List Nat → HState
  | st, k :: ks, w :: ws => roundsAll (sha256Round st k w) ks ws
  | st, _, _ => st

def sha256Compress (st : HState) (block : List Nat) : HState :=
  let ws16 := bytesToWords block
  let allW := ws16 ++ extendWords 48 (windowOf ws16)
  let fin := roundsAll st sha256K allW
  ⟨w32 (st.a + fin.a), w32 (st.b + fin.b), w32 (st.c + fin.c), w32 (st.d + fin.d),
   w32 (st.e + fin.e), w32 (st.f + fin.f), w32 (st.g + fin.g), w32 (st.h + fin.h)⟩

/-- 64-bit big-endian length field of the padding. -/
def sha256LenBytes (n : Nat) : List Nat :=
  [n / 72057594037927936 % 256, n / 281474976710656 % 256,
   n / 1099511627776 % 256, n / 4294967296 % 256,
   n / 16777216 % 256, n / 65536 % 256, n / 256 % 256, n % 256]

/-- `0x80`, zeros up to 56 mod 64, then the bit length. -/
def sha256Pad (msg : List Nat) : List Nat :=
  msg ++ 128 :: List.replicate ((64 - ((msg.length + 9) % 64)) % 64) 0
      ++ sha256LenBytes (8 * msg.length)

/-- Split into 64-byte blocks; the fuel (initially the length) makes the
recursion structural, so it reduces inside the kernel. -/
def chunks64Go : Nat → List Nat → List (List Nat)
  | _, [] => []
  | 0, l => [l.take 64]
  | fuel + 1, x :: t => (x :: t).take 64 :: chunks64Go fuel (t.drop 63)

def chunks64 (l : List Nat) : List (List Nat) := chunks64Go l.length l

/-- Big-endian bytes of a 32-bit word. -/
def wordBytes (w : Nat) : List Nat :=
  [w / 16777216 % 256, w / 65536 % 256, w / 256 % 256, w % 256]

def digestBytes (st : HState) : List Nat :=
  wordBytes st.a ++ wordBytes st.b ++ wordBytes st.c ++ wordBytes st.d ++
  wordBytes st.e ++ wordBytes st.f ++ wordBytes st.g ++ wordBytes st.h

/-- SHA-256 of a byte string, as 32 bytes. -/
def sha256Bytes (msg : List Nat) : List Nat :=
  digestBytes ((chunks64 (sha256Pad msg)).foldl sha256Compress sha256Init)

/-! ## UTF-8, hex digests, HMAC-SHA256, base64 -/

/-- UTF-8 encoding of one code point (Python `str.encode("utf-8")`). -/
def utf8Char (c : Char) : List Nat :=
  let n := c.toNat
  if n < 128 then [n]
  else if n < 2048 then [192 + n / 64, 128 + n % 64]
  else if n < 65536 then [224 + n / 4096, 128 + n / 64 % 64, 128 + n % 64]
  else [240 + n / 262144, 128 + n / 4096 % 64, 128 + n / 64 % 64, 128 + n % 64]

def utf8Encode (s : String) : List Nat :=
  (s.data.map utf8Char).foldr (· ++ ·) []

/-- Lowercase hex digit. -/
def nibbleHex (n : Nat) : Char :=
  if n < 10 then Char.ofNat (48 + n) else Char.ofNat (87 + n)

def hexDigestChars (bytes : List Nat) : List Char :=
  (bytes.map (fun b => [nibbleHex (b / 16 % 16), nibbleHex (b % 16)])).foldr
    (· ++ ·) []

/-- `.hexdigest()`. -/
def hexDigest (bytes : List Nat) : String := String.mk (hexDigestChars bytes)

/-- `hmac.new(key, msg, hashlib.sha256).digest()` (RFC 2104, block size 64). -/
def hmacSha256 (key msg : List Nat) : List Nat :=
  let k0 := if 64 < key.length then sha256Bytes key else key
  let kp := k0 ++ List.replicate (64 - k0.length) 0
  sha256Bytes ((kp.map (fun b => b ^^^ 92)) ++
    sha256Bytes ((kp.map (fun b => b ^^^ 54)) ++ msg))

def b64Char (n : Nat) : Char :=
  if n < 26 then Char.ofNat (65 + n)
  else if n < 52 then Char.ofNat (97 + (n - 26))
  else if n < 62 then Char.ofNat (48 + (n - 52))
  else if n = 62 then '+'
  else '/'

def b64Chars : List Nat → List Char
  | b0 :: b1 :: b2 :: rest =>
    let x := (b0 % 256) * 65536 + (b1 % 256) * 256 + (b2 % 256)
    b64Char (x / 262144) :: b64Char (x / 4096 % 64) :: b64Char (x / 64 % 64) ::
      b64Char (x % 64) :: b64Chars rest
  | [b0, b1] =>
    let x := (b0 % 256) * 65536 + (b1 % 256) * 256
    [b64Char (x / 262144), b64Char (x / 4096 % 64), b64Char (x / 64 % 64), '=']
  | [b0] =>
    let x := (b0 % 256) * 65536
    [b64Char (x / 262144), b64Char (x / 4096 % 64), '=', '=']
  | [] => []

/-- `base64.b64encode(...).decode("utf-8")`. -/
def b64Encode (bytes : List Nat) : String := String.mk (b64Chars bytes)

/-! ## `verify_line_signature` (src/app.py:122-127) -/

/--
`verify_line_signature`: reject when the supplied signature or the configured
channel secret is empty, else compare the base64-encoded HMAC-SHA256 of the
raw body against the supplied signature.  `hmac.compare_digest` is modelled by
string equality (its constant-time evaluation has no observable effect on the
returned value).  The webhook route (src/app.py:305-310) passes
`os.environ.get("LINE_CHANNEL_SECRET", "")`, so an absent secret reaches this
function as `""` and verification fails closed.
-/
def verify_line_signature (raw_body : List Nat) (signature : String)
    (channel_secret : String) : Bool :=
  if signature = "" ∨ channel_secret = "" then false
  else b64Encode (hmacSha256 (utf8Encode channel_secret) raw_body) == signature

/-! ## Canonical JSON serialization and `_make_cache_key` (src/app.py:35-41)

`json.dumps({"author": ..., "text": ..., "languages": [...]},
ensure_ascii=False, sort_keys=True)` emits the keys in sorted order
(`author`, `languages`, `text`) with the default separators `", "`/`": "`,
escaping only `"`, `\` and control characters (with the `\n`/`\r`/`\t`/`\b`/
`\f` shortcuts, `\u00XX` otherwise); `ensure_ascii=False` keeps all other
code points verbatim. -/

def jsonEscChar (c : Char) : List Char :=
  if c = '"' then ['\\', '"']
  else if c = '\\' then ['\\', '\\']
  else if c = '\n' then ['\\', 'n']
  else if c = '\r' then ['\\', 'r']
  else if c = '\t' then ['\\', 't']
  else if c = '\x08' then ['\\', 'b']
  else if c = '\x0c' then ['\\', 'f']
  else if c.toNat < 32 then
    ['\\', 'u', '0', '0', nibbleHex (c.toNat / 16), nibbleHex (c.toNat % 16)]
  else [c]

def jsonEscList (cs : List Char) : List Char :=
  (cs.map jsonEscChar).foldr (· ++ ·) []

/-- A JSON string literal: `"` + escaped content + `"`. -/
def jsonStrChars (s : String) : List Char :=
  '"' :: (jsonEscList s.data ++ ['"'])

/-- The comma-separated body of a JSON array of strings. -/
def jsonListBodyChars : List String → List Char
  | [] => []
  | [x] => jsonStrChars x
  | x :: y :: rest => jsonStrChars x ++ ',' :: ' ' :: jsonListBodyChars (y :: rest)

def canonicalChars (author text : String) (languages : List String) :
    List Char :=
  "\x7b\"author\": ".data ++ jsonStrChars author ++
  ", \"languages\": [".data ++ jsonListBodyChars languages ++
  "], \"text\": ".data ++ jsonStrChars text ++ ['\x7d']

/-- The canonical serialization `json.dumps(..., ensure_ascii=False,
sort_keys=True)` of src/app.py:36-40. -/
def canonicalJson (author text : String) (languages : List String) : String :=
  String.mk (canonicalChars author text languages)

/-- `_make_cache_key` (src/app.py:35-41): SHA-256 hexdigest of the UTF-8
encoded canonical serialization. -/
def _make_cache_key (author text : String) (languages : List String) : String :=
  hexDigest (sha256Bytes (utf8Encode (canonicalJson author text languages)))

/-! ## Parsed JSON values (the result of `json.loads` on provider output) -/

/-- A parsed JSON value, as produced by Python's `json.loads` (object keys
are strings; numbers restricted to integers, which is all the claims need). -/
inductive PyObj where
  | pNull : PyObj
  | pBool : Bool → PyObj
  | pInt : Int → PyObj
  | pStr : String → PyObj
  | pList : List PyObj → PyObj
  | pDict : List (String × PyObj) → PyObj

/-- Python truthiness (`if x:`, `x or y`). -/
def pyTruthy : PyObj → Bool
  | .pNull => false
  | .pBool b => b
  | .pInt n => !(n == 0)
  | .pStr s => !(s == "")
  | .pList xs => !xs.isEmpty
  | .pDict es => !es.isEmpty

/-- Python `repr` of a string (used by `str()` on containers): single quotes
unless the string contains `'` and no `"`. -/
def pyReprQuote (s : String) : Char :=
  if s.data.contains '\'' && !(s.data.contains '"') then '"' else '\''

def pyReprEsc (q : Char) (c : Char) : List Char :=
  if c = '\\' then ['\\', '\\']
  else if c = q then ['\\', q]
  else if c = '\n' then ['\\', 'n']
  else if c = '\r' then ['\\', 'r']
  else if c = '\t' then ['\\', 't']
  else if c.toNat < 32 ∨ c.toNat = 127 then
    ['\\', 'x', nibbleHex (c.toNat / 16), nibbleHex (c.toNat % 16)]
  else [c]

def pyStrRepr (s : String) : String :=
  let q := pyReprQuote s
  String.mk (q :: ((s.data.map (pyReprEsc q)).foldr (· ++ ·) [] ++ [q]))

mutual

/-- Python `repr` of a parsed JSON value. -/
def pyRepr : PyObj → String
  | .pNull => "None"
  | .pBool true => "True"
  | .pBool false => "False"
  | .pInt n => toString n
  | .pStr s => pyStrRepr s
  | .pList xs => "[" ++ pyReprList xs ++ "]"
  | .pDict es => "\x7b" ++ pyReprDict es ++ "\x7d"

def pyReprList : List PyObj → String
  | [] => ""
  | [x] => pyRepr x
  | x :: y :: rest => pyRepr x ++ ", " ++ pyReprList (y :: rest)

def pyReprDict : List (String × PyObj) → String
  | [] => ""
  | [(k, v)] => pyStrRepr k ++ ": " ++ pyRepr v
  | (k, v) :: e :: rest => pyStrRepr k ++ ": " ++ pyRepr v ++ ", " ++
      pyReprDict (e :: rest)

end

/-- Python `str()` of a parsed JSON value (`str` on a `str` is the identity;
on every other value it agrees with `repr`). -/
def pyStr : PyObj → String
  | .pStr s => s
  | v => pyRepr v

/-! ## The translation orchestrator `translate_core` (src/app.py:186-252) -/

/-- The Python exceptions `translate_core` can raise and the `/translate`
route (src/app.py:283-297) distinguishes. -/
inductive PyErr where
  | runtimeError : String → PyErr
  | jsonDecodeError : PyErr
  | attributeError : PyErr
deriving DecidableEq

/-- The payload dict assembled by `translate_core` (src/app.py:241-249). -/
structure Payload where
  author : String
  original_text : String
  detected_language : String
  translations : List (String × String)
  line_text : Option String
deriving DecidableEq

/-- The flag map of `_build_line_text` (src/app.py:87-101). -/
def flag_map : List (String × String) :=
  [("en", "🇺🇸"), ("fr", "🇫🇷"), ("es", "🇪🇸"), ("it", "🇮🇹"), ("fa", "🇮🇷"),
   ("pt", "🇵🇹"), ("de", "🇩🇪"), ("nl", "🇳🇱"), ("ar", "🇸🇦"), ("ja", "🇯🇵"),
   ("ko", "🇰🇷"), ("zh", "🇨🇳"), ("ru", "🇷🇺")]

/-- The local `clean` of `_build_line_text` (src/app.py:103-104). -/
def lineClean (s : String) : String :=
  pyStrip (String.mk (s.data.map (fun c =>
    if c = '\n' then ' ' else if c = '\r' then ' ' else c)))

/-- `_build_line_text` (src/app.py:86-116). -/
def _build_line_text (author original_text detected_language : String)
    (translations : List (String × String)) (ordered_langs : List String) :
    String :=
  let header := ["👤 " ++ lineClean author, "🌐 " ++ lineClean detected_language,
    "📝 " ++ lineClean original_text]
  let langLines := ordered_langs.map (fun lang =>
    let flag := (dictFind? flag_map (pyLower lang)).getD ("🏳️(" ++ lang ++ ")")
    flag ++ " " ++ lineClean ((dictFind? translations lang).getD ""))
  String.intercalate "\n" (header ++ langLines)

/-- The dict comprehension of src/app.py:239:
`{lang: str(translations.get(lang, "")).strip() for lang in ordered_langs}`. -/
def ordered_translations (tentries : List (String × PyObj))
    (ordered_langs : List String) : List (String × String) :=
  ordered_langs.foldl
    (fun d lang =>
      dictInsert d lang (pyStrip (pyStr ((dictFind? tentries lang).getD
        (.pStr "")))))
    []

/-- The part of `translate_core` after a cache miss (src/app.py:198-252).
The provider call itself is the external black box; `providerParsed` is the
outcome of `json.loads` on the raw response text (src/app.py:233-235):
`none` when parsing raises `json.JSONDecodeError`, `some r` when it yields
the value `r`.  `result.get(...)`/`translations.get(...)` on a non-dict
raises `AttributeError`. -/
def translate_core_miss (ttl : Int) (maxItems : Nat)
    (cache1 : CacheState Payload) (cache_key : String) (author text : String)
    (ordered_langs : List String) (include_line_text : Bool)
    (providerParsed : Option PyObj) (now : ℚ) :
    Except PyErr Payload × CacheState Payload :=
  match providerParsed with
  | none => (.error .jsonDecodeError, cache1)
  | some result =>
    match result with
    | .pDict res =>
      let detected_language :=
        pyStrip (pyStr ((dictFind? res "detected_language").getD
          (.pStr "unknown")))
      let tobj0 := (dictFind? res "translations").getD (.pDict [])
      let tobj := if pyTruthy tobj0 then tobj0 else .pDict []
      match tobj with
      | .pDict tentries =>
        let ots := ordered_translations tentries ordered_langs
        let payload : Payload :=
          { author := author, original_text := text,
            detected_language := detected_language, translations := ots,
            line_text :=
              if include_line_text then
                some (_build_line_text author text detected_language ots
                  ordered_langs)
              else none }
        (.ok payload, _cache_set maxItems ttl cache1 cache_key payload now)
      | _ => (.error .attributeError, cache1)
    | _ => (.error .attributeError, cache1)

/-- `translate_core` (src/app.py:186-252).  `apiKey` is
`os.environ.get("OPENAI_API_KEY")`; the global `CACHE` is threaded as an
explicit state, returned alongside the result (also when an exception
propagates, since the Python exception leaves the global cache as it was at
raise time). -/
def translate_core (apiKey : Option String) (now : ℚ) (ttl : Int)
    (maxItems : Nat) (cache : CacheState Payload) (author text : String)
    (ordered_langs : List String) (include_line_text : Bool)
    (providerParsed : Option PyObj) :
    Except PyErr Payload × CacheState Payload :=
  if apiKey.getD "" = "" then
    (.error (.runtimeError "OPENAI_API_KEY not set"), cache)
  else
    match _cache_get cache (_make_cache_key author text ordered_langs) now with
    | (some cached, cache1) => (.ok cached, cache1)
    | (none, cache1) =>
      translate_core_miss ttl maxItems cache1
        (_make_cache_key author text ordered_langs) author text ordered_langs
        include_line_text providerParsed now

/-! ## The `/translate` route (src/app.py:266-297) -/

/-- `DEFAULT_LANGS` (src/app.py:17). -/
def DEFAULT_LANGS : List String := ["en", "fr", "es", "it", "fa"]

def pyDefaultLangs : PyObj := .pList (DEFAULT_LANGS.map .pStr)

/-- `isinstance(languages, list) and all(isinstance(x, str) for x in ...)`. -/
def asStrList : PyObj → Option (List String)
  | .pList xs => goStrList xs
  | _ => none
where goStrList : List PyObj → Option (List String)
  | [] => some []
  | .pStr s :: rest => (goStrList rest).map (fun l => s :: l)
  | _ => none

/-- `[x.strip() for x in languages if x and x.strip()]` (src/app.py:279). -/
def stripLangs (langs : List String) : List String :=
  (langs.filter (fun x => !(x == "") && !(pyStrip x == ""))).map pyStrip

/-- The effective target-language computation of the `/translate` route
(src/app.py:271, 277-281): `data.get("languages") or DEFAULT_LANGS`, the
list-of-strings validation (`none` = the 400 validation error), the
strip-and-drop-empties comprehension, and the fallback to `DEFAULT_LANGS`
when the comprehension leaves nothing. -/
def route_langs (languagesField : Option PyObj) : Option (List String) :=
  let languages := match languagesField with
    | none => pyDefaultLangs
    | some v => if pyTruthy v then v else pyDefaultLangs
  match asStrList languages with
  | none => none
  | some l =>
    let ordered := stripLangs l
    some (if ordered.isEmpty then DEFAULT_LANGS else ordered)

/-- The HTTP response bodies the `/translate` route can produce. -/
inductive RouteResp where
  | okPayload : Payload → RouteResp
  | errNoText : RouteResp
  | errBadLangs : RouteResp
  | errJson : RouteResp
  | errInternal : String → RouteResp
deriving DecidableEq

def pyErrMsg : PyErr → String
  | .runtimeError m => m
  | .jsonDecodeError => "json decode error"
  | .attributeError => "attribute error"

/-- The `/translate` route (src/app.py:266-297): field extraction with
defaults, the empty-text 400, the languages validation 400, the call into
`translate_core`, and the `except` ladder mapping `json.JSONDecodeError`
to the dedicated 500 body and any other exception to a generic 500. -/
def translate_route (apiKey : Option String) (now : ℚ) (ttl : Int)
    (maxItems : Nat) (cache : CacheState Payload)
    (authorField textField : Option String) (languagesField : Option PyObj)
    (iltField : Option PyObj) (providerParsed : Option PyObj) :
    (Nat × RouteResp) × CacheState Payload :=
  let author := authorField.getD "Unknown"
  let text := pyStrip (textField.getD "")
  if text = "" then ((400, .errNoText), cache)
  else
    match route_langs languagesField with
    | none => ((400, .errBadLangs), cache)
    | some ordered_langs =>
      let include_line_text := pyTruthy (iltField.getD (.pBool true))
      match translate_core apiKey now ttl maxItems cache author text
          ordered_langs include_line_text providerParsed with
      | (.ok p, c) => ((200, .okPayload p), c)
      | (.error .jsonDecodeError, c) => ((500, .errJson), c)
      | (.error e, c) => ((500, .errInternal (pyErrMsg e)), c)

/-! ## `reply_to_line` (src/app.py:161-180) -/

/-- The reply message the code would POST (the reply token and the text of
the single message in the payload, src/app.py:171-174). -/
structure LineReply where
  replyToken : String
  messageText : String
deriving DecidableEq

/-- `reply_to_line` (src/app.py:161-180): returns `False` with no outbound
call when the access token is absent/empty or the reply token is empty;
otherwise performs one call whose message text is `text[:4900]`, returning
whether the call succeeded (`sendOk` models the network outcome, covering
both a non-200 status and a raised exception as `false`). -/
def reply_to_line (accessToken : Option String) (reply_token text : String)
    (sendOk : Bool) : Option LineReply × Bool :=
  if accessToken.getD "" = "" ∨ reply_token = "" then (none, false)
  else (some ⟨reply_token, pyTake 4900 text⟩, sendOk)

/-! ## A decoder for the canonical serialization

These are verification artifacts (not code from the repository): an inverse
of `canonicalChars`, used to prove that distinct `(author, text, languages)`
triples always serialize to distinct canonical JSON strings — the
injectivity half of the fingerprint claim. -/

/-- Value of a lowercase hex digit. -/
def hexVal (c : Char) : Nat :=
  if c.toNat ≤ 57 then c.toNat - 48 else c.toNat - 87

/-- Inverse of the two-character JSON escapes. -/
def unescSimple (e : Char) : Char :=
  if e = 'n' then '\n'
  else if e = 'r' then '\r'
  else if e = 't' then '\t'
  else if e = 'b' then '\x08'
  else if e = 'f' then '\x0c'
  else e

/-- Parse the body of a JSON string literal up to its closing quote,
returning the unescaped content and the remaining input. -/
def parseJStrBody : List Char → Option (List Char × List Char)
  | [] => none
  | c :: rest =>
    if c = '"' then some ([], rest)
    else if c = '\\' then
      match rest with
      | [] => none
      | e :: rest2 =>
        if e = 'u' then
          match rest2 with
          | h1 :: h2 :: h3 :: h4 :: rest3 =>
            (parseJStrBody rest3).map (fun p =>
              (Char.ofNat (((hexVal h1 * 16 + hexVal h2) * 16 + hexVal h3) * 16
                + hexVal h4) :: p.1, p.2))
          | _ => none
        else (parseJStrBody rest2).map (fun p => (unescSimple e :: p.1, p.2))
    else (parseJStrBody rest).map (fun p => (c :: p.1, p.2))

/-- Parse a whole JSON string literal. -/
def parseJsonStrTok (l : List Char) : Option (String × List Char) :=
  match l with
  | [] => none
  | c :: rest =>
    if c = '"' then (parseJStrBody rest).map (fun p => (String.mk p.1, p.2))
    else none

/-- Parse the `", "`-separated elements of a JSON string array up to (and
including) the closing `]`; for a nonempty array. -/
def parseJListAux : Nat → List Char → Option (List String × List Char)
  | 0, _ => none
  | fuel + 1, l =>
    match parseJsonStrTok l with
    | none => none
    | some (s, rest) =>
      match rest with
      | [] => none
      | c :: r =>
        if c = ']' then some ([s], r)
        else if c = ',' then
          match r with
          | [] => none
          | c2 :: r2 =>
            if c2 = ' ' then
              (parseJListAux fuel r2).map (fun p => (s :: p.1, p.2))
            else none
        else none

/-- Parse a JSON string array body plus its closing `]`. -/
def parseJList (l : List Char) : Option (List String × List Char) :=
  match l with
  | [] => none
  | c :: rest =>
    if c = ']' then some ([], rest)
    else parseJListAux (c :: rest).length (c :: rest)

/-- Strip an expected literal fragment. -/
def dropPrefixChars : List Char → List Char → Option (List Char)
  | [], l => some l
  | _ :: _, [] => none
  | p :: ps, c :: cs => if c = p then dropPrefixChars ps cs else none

/-- Decode a canonical serialization back into its `(author, languages,
text)` components. -/
def decodeCanonical (l : List Char) : Option (String × List String × String) :=
  (dropPrefixChars "\x7b\"author\": ".data l).bind fun l1 =>
  (parseJsonStrTok l1).bind fun p1 =>
  (dropPrefixChars ", \"languages\": [".data p1.2).bind fun l3 =>
  (parseJList l3).bind fun p2 =>
  (dropPrefixChars ", \"text\": ".data p2.2).bind fun l5 =>
  (parseJsonStrTok l5).bind fun p3 =>
  if p3.2 = ['\x7d'] then some (p1.1, p2.1, p3.1) else none

/-! ## Association-list dict lemmas -/

theorem find?_append_of_none {β : Type _} (f : β → Bool) (l1 l2 : List β)
    (h : l1.find? f = none) : (l1 ++ l2).find? f = l2.find? f := by
  induction l1 with
  | nil => rfl
  | cons a l ih =>
    by_cases ha : f a
    · simp [List.find?_cons_of_pos _ ha] at h
    · simp only [List.find?_cons_of_neg _ ha] at h
      simpa [List.find?_cons_of_neg _ ha] using ih h

theorem dictFind?_cons_pos {β : Type _} (p : String × β) (d : List (String × β))
    (k : String) (h : p.1 = k) : dictFind? (p :: d) k = some p.2 := by
  unfold dictFind?
  rw [@List.find?_cons_of_pos _ (fun q => q.1 == k) p d (by simpa using h)]
  rfl

theorem dictFind?_cons_neg {β : Type _} (p : String × β) (d : List (String × β))
    (k : String) (h : ¬ p.1 = k) : dictFind? (p :: d) k = dictFind? d k := by
  unfold dictFind?
  rw [@List.find?_cons_of_neg _ (fun q => q.1 == k) p d (by simpa using h)]

theorem dictFind?_insert_self {β : Type _} (d : List (String × β)) (k : String)
    (v : β) : dictFind? (dictInsert d k v) k = some v := by
  induction d with
  | nil => exact dictFind?_cons_pos (k, v) [] k rfl
  | cons p d ih =>
    show dictFind? (if p.1 = k then (k, v) :: d else p :: dictInsert d k v) k
      = some v
    by_cases hp : p.1 = k
    · rw [if_pos hp]
      exact dictFind?_cons_pos (k, v) d k rfl
    · rw [if_neg hp, dictFind?_cons_neg p _ k hp]
      exact ih

theorem dictFind?_insert_ne {β : Type _} (d : List (String × β)) (k k' : String)
    (v : β) (hne : k' ≠ k) : dictFind? (dictInsert d k v) k' = dictFind? d k' := by
  induction d with
  | nil =>
    show dictFind? [(k, v)] k' = dictFind? [] k'
    rw [dictFind?_cons_neg (k, v) [] k' (Ne.symm hne)]
  | cons p d ih =>
    show dictFind? (if p.1 = k then (k, v) :: d else p :: dictInsert d k v) k'
      = dictFind? (p :: d) k'
    by_cases hp : p.1 = k
    · have hpk' : ¬ p.1 = k' := by rw [hp]; exact Ne.symm hne
      rw [if_pos hp, dictFind?_cons_neg (k, v) d k' (Ne.symm hne),
        dictFind?_cons_neg p d k' hpk']
    · rw [if_neg hp]
      by_cases hpk' : p.1 = k'
      · rw [dictFind?_cons_pos p _ k' hpk', dictFind?_cons_pos p d k' hpk']
      · rw [dictFind?_cons_neg p _ k' hpk', dictFind?_cons_neg p d k' hpk']
        exact ih

theorem dictFind?_erase_self {β : Type _} (d : List (String × β)) (k : String) :
    dictFind? (dictErase d k) k = none := by
  induction d with
  | nil => rfl
  | cons p d ih =>
    by_cases hp : p.1 = k
    · have h1 : dictErase (p :: d) k = dictErase d k := by
        unfold dictErase
        simp [List.filter_cons, hp]
      rw [h1]
      exact ih
    · have h1 : dictErase (p :: d) k = p :: dictErase d k := by
        unfold dictErase
        simp [List.filter_cons, hp]
      rw [h1, dictFind?_cons_neg p _ k hp]
      exact ih

theorem cacheGet_of_find_some {α : Type _} (cache : CacheState α) (key : String)
    (now : ℚ) (e : ℚ) (p : α) (h : dictFind? cache key = some (e, p)) :
    _cache_get cache key now =
      if e ≤ now then (none, dictErase cache key) else (some p, cache) := by
  unfold _cache_get
  rw [h]

theorem cacheGet_of_find_none {α : Type _} (cache : CacheState α) (key : String)
    (now : ℚ) (h : dictFind? cache key = none) :
    _cache_get cache key now = (none, cache) := by
  unfold _cache_get
  rw [h]

theorem length_dictInsert_le {β : Type _} (d : List (String × β)) (k : String)
    (v : β) : (dictInsert d k v).length ≤ d.length + 1 := by
  induction d with
  | nil => simp [dictInsert]
  | cons p d ih =>
    by_cases hp : p.1 = k
    · simp [dictInsert, hp]
    · simp only [dictInsert, hp, if_false, List.length_cons]
      omega

/-! ## C3: cache round-trip with TTL -/

/--
**C3.** After `_cache_set(k, v)` at time `t0` with a positive TTL,
`_cache_get(k)` returns `v` at any time before `t0 + ttl`; at or after
`t0 + ttl`, it returns absent and removes the expired entry as a side effect
(the key is gone from the resulting store).  (`src/app.py:44-65`)
-/
theorem cache_ttl_roundtrip {α : Type} (maxItems : Nat) (ttl : Int)
    (cache : CacheState α) (k : String) (v : α) (t0 t1 : ℚ)
    (httl : 0 < ttl) :
    (t1 < t0 + (ttl : ℚ) →
      _cache_get (_cache_set maxItems ttl cache k v t0) k t1 =
        (some v, _cache_set maxItems ttl cache k v t0)) ∧
    (t0 + (ttl : ℚ) ≤ t1 →
      (_cache_get (_cache_set maxItems ttl cache k v t0) k t1).1 = none ∧
      dictFind? (_cache_get (_cache_set maxItems ttl cache k v t0) k t1).2 k = none) := by
  have hset : _cache_set maxItems ttl cache k v t0 =
      dictInsert (if maxItems ≤ cache.length then cache.drop (evictCutoff maxItems)
        else cache) k (t0 + (ttl : ℚ), v) := by
    unfold _cache_set
    rw [if_neg (by exact not_le.mpr httl)]
  have hfind : dictFind? (_cache_set maxItems ttl cache k v t0) k =
      some (t0 + (ttl : ℚ), v) := by
    rw [hset]; exact dictFind?_insert_self _ _ _
  constructor
  · intro hlt
    rw [cacheGet_of_find_some _ _ _ _ _ hfind]
    rw [if_neg (by exact not_le.mpr hlt)]
  · intro hge
    rw [cacheGet_of_find_some _ _ _ _ _ hfind]
    rw [if_pos hge]
    exact ⟨rfl, dictFind?_erase_self _ _⟩

/-- Witness for C3 at `k = "k"`, `v = "v"`, `ttl = 10`, read at time `3 < 10`. -/
theorem cache_ttl_roundtrip_witness :
    _cache_get (_cache_set 2000 10 ([] : CacheState String) "k" "v" 0) "k" 3 =
      (some "v", _cache_set 2000 10 ([] : CacheState String) "k" "v" 0) :=
  (cache_ttl_roundtrip 2000 10 [] "k" "v" 0 3 (by norm_num)).1 (by norm_num)

/-! ## C7: eviction keeps the store within the configured maximum -/

theorem cacheSet_length_le {α : Type} (maxItems : Nat) (ttl : Int)
    (cache : CacheState α) (k : String) (v : α) (now : ℚ)
    (hmax : 0 < maxItems) (hlen : cache.length ≤ maxItems) :
    (_cache_set maxItems ttl cache k v now).length ≤ maxItems := by
  unfold _cache_set
  by_cases httl : ttl ≤ 0
  · simpa [httl] using hlen
  · rw [if_neg httl]
    by_cases hfull : maxItems ≤ cache.length
    · simp only [hfull, if_true]
      have hcut : 1 ≤ evictCutoff maxItems := by
        unfold evictCutoff
        by_cases h : maxItems / 10 = 0 <;> simp [h]
        omega
      have hdrop : (cache.drop (evictCutoff maxItems)).length =
          cache.length - evictCutoff maxItems := by
        simp [List.length_drop]
      have := length_dictInsert_le (cache.drop (evictCutoff maxItems)) k
        (now + (ttl : ℚ), v)
      omega
    · simp only [hfull, if_false]
      have := length_dictInsert_le cache k (now + (ttl : ℚ), v)
      omega

/--
**C7.** With a positive configured maximum: (a) starting from the empty store,
any sequence of `_cache_set` operations leaves at most `maxItems` entries, and
(b) when a set finds the store at or above the maximum (and the TTL is
positive), it first pops the first `evictCutoff maxItems` =
`max(1, maxItems/10)` keys before inserting.  (`src/app.py:55-65`)
-/
theorem cache_eviction_bound {α : Type} (maxItems : Nat) (ttl : Int)
    (hmax : 0 < maxItems) :
    (∀ ops : List (String × α × ℚ),
       (ops.foldl (fun c op => _cache_set maxItems ttl c op.1 op.2.1 op.2.2)
          ([] : CacheState α)).length ≤ maxItems) ∧
    (∀ (cache : CacheState α) (k : String) (v : α) (now : ℚ),
       0 < ttl → maxItems ≤ cache.length →
       _cache_set maxItems ttl cache k v now =
         dictInsert (cache.drop (evictCutoff maxItems)) k (now + (ttl : ℚ), v)) := by
  constructor
  · intro ops
    suffices h : ∀ (c : CacheState α), c.length ≤ maxItems →
        (ops.foldl (fun c op => _cache_set maxItems ttl c op.1 op.2.1 op.2.2)
          c).length ≤ maxItems by
      exact h [] (by simp)
    induction ops with
    | nil => intro c hc; simpa using hc
    | cons op ops ih =>
      intro c hc
      exact ih _ (cacheSet_length_le maxItems ttl c op.1 op.2.1 op.2.2 hmax hc)
  · intro cache k v now httl hfull
    unfold _cache_set
    rw [if_neg (by exact not_le.mpr httl), if_pos hfull]

/-- Witness for C7 with the repo's defaults (max 2000): two sets stay ≤ 2000. -/
theorem cache_eviction_bound_witness :
    (([("a", ("x", (0 : ℚ))), ("b", ("y", (0 : ℚ)))]).foldl
       (fun c op => _cache_set 2000 86400 c op.1 op.2.1 op.2.2)
       ([] : CacheState String)).length ≤ 2000 :=
  (cache_eviction_bound (α := String) 2000 86400 (by norm_num)).1 _

/-! ## Reduction helpers for `translate_core` -/

theorem cache_get_miss_find_none {α : Type _} (cache : CacheState α)
    (key : String) (now : ℚ) (h : (_cache_get cache key now).1 = none) :
    dictFind? (_cache_get cache key now).2 key = none := by
  cases hf : dictFind? cache key with
  | none =>
    rw [cacheGet_of_find_none _ _ now hf]
    exact hf
  | some ep =>
    obtain ⟨e, p⟩ := ep
    rw [cacheGet_of_find_some _ _ now e p hf] at h ⊢
    by_cases hle : e ≤ now
    · rw [if_pos hle]
      exact dictFind?_erase_self _ _
    · rw [if_neg hle] at h
      exact absurd h (by simp)

theorem translate_core_of_miss (apiKeyS : String) (now : ℚ) (ttl : Int)
    (maxItems : Nat) (cache : CacheState Payload) (author text : String)
    (ordered_langs : List String) (ilt : Bool) (pp : Option PyObj)
    (hk : apiKeyS ≠ "")
    (hmiss : (_cache_get cache (_make_cache_key author text ordered_langs)
      now).1 = none) :
    translate_core (some apiKeyS) now ttl maxItems cache author text
        ordered_langs ilt pp =
      translate_core_miss ttl maxItems
        (_cache_get cache (_make_cache_key author text ordered_langs) now).2
        (_make_cache_key author text ordered_langs) author text ordered_langs
        ilt pp now := by
  have hp : _cache_get cache (_make_cache_key author text ordered_langs) now =
      (none,
       (_cache_get cache (_make_cache_key author text ordered_langs) now).2) := by
    rw [← hmiss]
  unfold translate_core
  rw [if_neg (by simpa using hk), hp]

theorem route_langs_none : route_langs none = some DEFAULT_LANGS := by decide

theorem pdict_truthy_norm (t : List (String × PyObj)) :
    (if pyTruthy (.pDict t) then (.pDict t : PyObj) else .pDict []) =
      .pDict t := by
  cases t with
  | nil => simp [pyTruthy]
  | cons e rest => simp [pyTruthy]

theorem translate_core_miss_pdict (ttl : Int) (maxItems : Nat)
    (cache1 : CacheState Payload) (cache_key author text : String)
    (ordered_langs : List String) (ilt : Bool)
    (res tdict : List (String × PyObj)) (now : ℚ)
    (ht : dictFind? res "translations" = some (.pDict tdict)) :
    translate_core_miss ttl maxItems cache1 cache_key author text ordered_langs
        ilt (some (.pDict res)) now =
      (let detected := pyStrip (pyStr ((dictFind? res "detected_language").getD
         (.pStr "unknown")))
       let ots := ordered_translations tdict ordered_langs
       let payload : Payload := ⟨author, text, detected, ots,
         if ilt then
           some (_build_line_text author text detected ots ordered_langs)
         else none⟩
       (.ok payload, _cache_set maxItems ttl cache1 cache_key payload now)) := by
  simp only [translate_core_miss, ht, Option.getD_some, pdict_truthy_norm]

/-! ## Dict-comprehension fold lemmas (src/app.py:239) -/

theorem dictInsert_of_find_none {β : Type _} (d : List (String × β))
    (k : String) (v : β) (h : dictFind? d k = none) :
    dictInsert d k v = d ++ [(k, v)] := by
  induction d with
  | nil => rfl
  | cons p d ih =>
    by_cases hp : p.1 = k
    · rw [dictFind?_cons_pos p d k hp] at h
      exact absurd h (by simp)
    · rw [dictFind?_cons_neg p d k hp] at h
      show (if p.1 = k then (k, v) :: d else p :: dictInsert d k v) =
        p :: d ++ [(k, v)]
      rw [if_neg hp, ih h]
      rfl

theorem dictFind?_append_of_none {β : Type _} (d1 d2 : List (String × β))
    (k : String) (h : dictFind? d1 k = none) :
    dictFind? (d1 ++ d2) k = dictFind? d2 k := by
  have h1 : d1.find? (fun p => p.1 == k) = none := by
    unfold dictFind? at h
    cases hf : d1.find? (fun p => p.1 == k) with
    | none => rfl
    | some p => rw [hf] at h; exact absurd h (by simp)
  unfold dictFind?
  rw [find?_append_of_none _ _ _ h1]

theorem dictFind?_singleton_ne {β : Type _} (k k' : String) (v : β)
    (h : ¬ k = k') : dictFind? [(k, v)] k' = none := by
  rw [dictFind?_cons_neg (k, v) [] k' h]
  rfl

theorem foldl_dictInsert_find_notmem {β : Type _} (f : String → β)
    (L : List String) (d0 : List (String × β)) (y : String) (hy : y ∉ L) :
    dictFind? (L.foldl (fun d lang => dictInsert d lang (f lang)) d0) y =
      dictFind? d0 y := by
  induction L generalizing d0 with
  | nil => rfl
  | cons x L ih =>
    have hyx : y ≠ x := fun h => hy (h ▸ List.mem_cons_self x L)
    have hyL : y ∉ L := fun h => hy (List.mem_cons_of_mem x h)
    rw [List.foldl_cons, ih _ hyL]
    exact dictFind?_insert_ne d0 x y (f x) hyx

theorem foldl_dictInsert_keys {β : Type _} (f : String → β) (L : List String)
    (d0 : List (String × β)) (hnd : L.Nodup)
    (hdisj : ∀ x ∈ L, dictFind? d0 x = none) :
    (L.foldl (fun d lang => dictInsert d lang (f lang)) d0).map Prod.fst =
      d0.map Prod.fst ++ L := by
  induction L generalizing d0 with
  | nil => simp
  | cons x L ih =>
    have hx0 : dictFind? d0 x = none := hdisj x (List.mem_cons_self x L)
    have hxL : x ∉ L := (List.nodup_cons.mp hnd).1
    have hndL : L.Nodup := (List.nodup_cons.mp hnd).2
    have hdisj' : ∀ z ∈ L, dictFind? (d0 ++ [(x, f x)]) z = none := by
      intro z hz
      rw [dictFind?_append_of_none _ _ _ (hdisj z (List.mem_cons_of_mem x hz))]
      exact dictFind?_singleton_ne x z (f x) (fun h => hxL (h ▸ hz))
    rw [List.foldl_cons, dictInsert_of_find_none d0 x (f x) hx0,
      ih _ hndL hdisj']
    simp

theorem foldl_dictInsert_find_mem {β : Type _} (f : String → β)
    (L : List String) (d0 : List (String × β)) (hnd : L.Nodup)
    (hdisj : ∀ x ∈ L, dictFind? d0 x = none) (y : String) (hy : y ∈ L) :
    dictFind? (L.foldl (fun d lang => dictInsert d lang (f lang)) d0) y =
      some (f y) := by
  induction L generalizing d0 with
  | nil => exact absurd hy (List.not_mem_nil y)
  | cons x L ih =>
    have hxL : x ∉ L := (List.nodup_cons.mp hnd).1
    have hndL : L.Nodup := (List.nodup_cons.mp hnd).2
    have hdisj' : ∀ z ∈ L,
        dictFind? (dictInsert d0 x (f x)) z = none := by
      intro z hz
      have hzx : z ≠ x := fun h => hxL (h ▸ hz)
      rw [dictFind?_insert_ne d0 x z (f x) hzx]
      exact hdisj z (List.mem_cons_of_mem x hz)
    rw [List.foldl_cons]
    rcases List.mem_cons.mp hy with hyx | hyL
    · subst hyx
      rw [foldl_dictInsert_find_notmem f L _ y hxL]
      exact dictFind?_insert_self d0 y (f y)
    · exact ih _ hndL hdisj' hyL

/-- Specialization to the comprehension of src/app.py:239. -/
theorem ordered_translations_keys (tentries : List (String × PyObj))
    (L : List String) (hnd : L.Nodup) :
    (ordered_translations tentries L).map Prod.fst = L := by
  unfold ordered_translations
  rw [foldl_dictInsert_keys _ L [] hnd (fun x _ => rfl)]
  rfl

theorem ordered_translations_find (tentries : List (String × PyObj))
    (L : List String) (hnd : L.Nodup) (lang : String) (hmem : lang ∈ L) :
    dictFind? (ordered_translations tentries L) lang =
      some (pyStrip (pyStr ((dictFind? tentries lang).getD (.pStr "")))) := by
  unfold ordered_translations
  exact foldl_dictInsert_find_mem _ L [] hnd (fun x _ => rfl) lang hmem

/-! ## C5: webhook signature verification -/

-- Sanity check of the embedded SHA-256 against the FIPS 180 test vector.
set_option maxRecDepth 10000 in
theorem sha256_test_vector :
    hexDigest (sha256Bytes (utf8Encode "abc")) =
      "ba7816bf8f01cfea414140de5dae2223b00361a396177a9cb410ff61f20015ad" := by
  decide

theorem digestBytes_ne_nil (st : HState) : digestBytes st ≠ [] := by
  simp [digestBytes, wordBytes]

theorem sha256Bytes_ne_nil (msg : List Nat) : sha256Bytes msg ≠ [] :=
  digestBytes_ne_nil _

theorem stringMk_cons_ne_empty (c : Char) (l : List Char) :
    String.mk (c :: l) ≠ "" := by
  intro h
  have h2 : ((String.mk (c :: l)).data : List Char) = ("" : String).data :=
    congrArg String.data h
  exact absurd h2 (by simp)

theorem b64Encode_ne_empty (bytes : List Nat) (h : bytes ≠ []) :
    b64Encode bytes ≠ "" := by
  match bytes with
  | [] => exact absurd rfl h
  | [b0] => exact stringMk_cons_ne_empty _ _
  | [b0, b1] => exact stringMk_cons_ne_empty _ _
  | b0 :: b1 :: b2 :: rest => exact stringMk_cons_ne_empty _ _

/--
**C5.** `verify_line_signature` (src/app.py:122-127) with a non-empty channel
secret accepts exactly the base64-encoded HMAC-SHA256 of the raw body under
that secret and rejects every other signature string; with an empty/absent
secret (which is what the webhook route passes when `LINE_CHANNEL_SECRET` is
unset, src/app.py:305-310) it rejects every request: fail closed.
-/
theorem webhook_signature_verification (raw_body : List Nat)
    (secret sig : String) (hsec : secret ≠ "") :
    verify_line_signature raw_body
        (b64Encode (hmacSha256 (utf8Encode secret) raw_body)) secret = true ∧
    (sig ≠ b64Encode (hmacSha256 (utf8Encode secret) raw_body) →
      verify_line_signature raw_body sig secret = false) ∧
    (∀ (raw_body' : List Nat) (sig' : String),
      verify_line_signature raw_body' sig' "" = false) := by
  have hexp : b64Encode (hmacSha256 (utf8Encode secret) raw_body) ≠ "" :=
    b64Encode_ne_empty _ (sha256Bytes_ne_nil _)
  refine ⟨?_, ?_, ?_⟩
  · unfold verify_line_signature
    rw [if_neg (not_or.mpr ⟨hexp, hsec⟩)]
    simp
  · intro hne
    unfold verify_line_signature
    by_cases hs : sig = ""
    · rw [if_pos (Or.inl hs)]
    · rw [if_neg (not_or.mpr ⟨hs, hsec⟩)]
      simp only [beq_eq_false_iff_ne, ne_eq]
      exact fun h => hne h.symm
  · intro rb sig'
    unfold verify_line_signature
    rw [if_pos (Or.inr rfl)]

/-- Witness for C5: the correctly signed request `[104, 105]` under secret
`"s"` verifies. -/
theorem webhook_signature_verification_witness :
    verify_line_signature [104, 105]
      (b64Encode (hmacSha256 (utf8Encode "s") [104, 105])) "s" = true :=
  (webhook_signature_verification [104, 105] "s" "x" (by decide)).1

/-! ## C1: detected-language handling in `translate_core` -/

/--
**C1 counterexample.** `translate_core` (src/app.py:233-246) performs no
language-name normalization: on the spec's own scenario (provider detects
`"english"`) the result carries `"english"` verbatim, not `"en"`.  The code
only applies `str(...).strip()` to the provider's `detected_language` value.
-/
theorem detected_language_not_normalized_cex :
    (translate_core (some "k") 0 86400 2000 [] "Alice" "Hello there" ["fr"]
        false
        (some (.pDict [("detected_language", .pStr "english"),
          ("translations", .pDict [("fr", .pStr "Salut")])]))).1 =
      .ok ⟨"Alice", "Hello there", "english", [("fr", "Salut")], none⟩ ∧
    ("english" : String) ≠ "en" := by
  constructor
  · rfl
  · decide

/--
**C1 (amended).** `translate_core` places the provider's detected-language
value in the result after `str(...)` coercion and whitespace trim only: a
string value `s` is kept as `pyStrip s` (no name→code mapping, no code-shape
check), and an absent field defaults to the sentinel `"unknown"`
(src/app.py:236, 244).
-/
theorem detected_language_passthrough (apiKeyS : String) (now : ℚ) (ttl : Int)
    (maxItems : Nat) (cache : CacheState Payload) (author text : String)
    (L : List String) (ilt : Bool) (res tdict : List (String × PyObj))
    (hk : apiKeyS ≠ "")
    (hmiss : (_cache_get cache (_make_cache_key author text L) now).1 = none)
    (ht : dictFind? res "translations" = some (.pDict tdict)) :
    (∀ s : String, dictFind? res "detected_language" = some (.pStr s) →
      ∀ (p : Payload) (c : CacheState Payload),
        translate_core (some apiKeyS) now ttl maxItems cache author text L ilt
            (some (.pDict res)) = (.ok p, c) →
        p.detected_language = pyStrip s) ∧
    (dictFind? res "detected_language" = none →
      ∀ (p : Payload) (c : CacheState Payload),
        translate_core (some apiKeyS) now ttl maxItems cache author text L ilt
            (some (.pDict res)) = (.ok p, c) →
        p.detected_language = "unknown") := by
  have hred := translate_core_of_miss apiKeyS now ttl maxItems cache author
    text L ilt (some (.pDict res)) hk hmiss
  rw [translate_core_miss_pdict _ _ _ _ _ _ _ _ res tdict now ht] at hred
  constructor
  · intro s hd p c h
    rw [hred] at h
    simp only [Prod.mk.injEq, Except.ok.injEq] at h
    obtain ⟨hp, -⟩ := h
    rw [← hp]
    simp only [hd, Option.getD_some, pyStr]
  · intro hd p c h
    rw [hred] at h
    simp only [Prod.mk.injEq, Except.ok.injEq] at h
    obtain ⟨hp, -⟩ := h
    rw [← hp]
    simp only [hd, Option.getD_none, pyStr]
    decide

/-- Witness for the amended C1: detected language `"English"` stays
`"English"` in the assembled payload (trim only). -/
theorem detected_language_passthrough_witness :
    Payload.detected_language
        ⟨"A", "hi", pyStrip "English", ordered_translations [] ["fr"], none⟩ =
      pyStrip "English" :=
  (detected_language_passthrough "k" 0 86400 2000 [] "A" "hi" ["fr"] false
      [("detected_language", PyObj.pStr "English"),
       ("translations", PyObj.pDict [])] [] (by decide) rfl rfl).1
    "English" rfl
    ⟨"A", "hi", pyStrip "English", ordered_translations [] ["fr"], none⟩
    (_cache_set 2000 86400 [] (_make_cache_key "A" "hi" ["fr"])
      ⟨"A", "hi", pyStrip "English", ordered_translations [] ["fr"], none⟩ 0)
    rfl

/-! ## C2: the translations mapping covers exactly the requested codes -/

/--
**C2.** For a cache miss with a provider response whose `translations` field
is a mapping, the payload's `translations` has exactly the requested language
codes as keys, in request order, and every requested code the provider omitted
is present with value `""` (src/app.py:239-246).
-/
theorem translations_requested_keys (apiKeyS : String) (now : ℚ) (ttl : Int)
    (maxItems : Nat) (cache : CacheState Payload) (author text : String)
    (L : List String) (ilt : Bool) (res tdict : List (String × PyObj))
    (hk : apiKeyS ≠ "")
    (hmiss : (_cache_get cache (_make_cache_key author text L) now).1 = none)
    (ht : dictFind? res "translations" = some (.pDict tdict))
    (hnd : L.Nodup) :
    ∀ (p : Payload) (c : CacheState Payload),
      translate_core (some apiKeyS) now ttl maxItems cache author text L ilt
          (some (.pDict res)) = (.ok p, c) →
      p.translations.map Prod.fst = L ∧
      (∀ lang ∈ L, dictFind? p.translations lang =
        some (pyStrip (pyStr ((dictFind? tdict lang).getD (.pStr ""))))) ∧
      (∀ lang ∈ L, dictFind? tdict lang = none →
        dictFind? p.translations lang = some "") := by
  have hred := translate_core_of_miss apiKeyS now ttl maxItems cache author
    text L ilt (some (.pDict res)) hk hmiss
  rw [translate_core_miss_pdict _ _ _ _ _ _ _ _ res tdict now ht] at hred
  intro p c h
  rw [hred] at h
  simp only [Prod.mk.injEq, Except.ok.injEq] at h
  obtain ⟨hp, -⟩ := h
  rw [← hp]
  refine ⟨ordered_translations_keys tdict L hnd, ?_, ?_⟩
  · intro lang hmem
    exact ordered_translations_find tdict L hnd lang hmem
  · intro lang hmem hnone
    rw [ordered_translations_find tdict L hnd lang hmem, hnone]
    rfl

/-- Witness for C2 on the spec's own example: request `["en", "fr"]` with a
provider mapping that omits `"fr"`; the omitted code is present as `""`. -/
theorem translations_requested_keys_witness :
    dictFind? (ordered_translations [("en", PyObj.pStr "Hi")] ["en", "fr"])
        "fr" = some "" :=
  (translations_requested_keys "k" 0 86400 2000 [] "Alice" "Hello"
      ["en", "fr"] false
      [("translations", PyObj.pDict [("en", PyObj.pStr "Hi")])]
      [("en", PyObj.pStr "Hi")] (by decide) rfl rfl (by decide)
      ⟨"Alice", "Hello", pyStrip (pyStr (PyObj.pStr "unknown")),
        ordered_translations [("en", PyObj.pStr "Hi")] ["en", "fr"], none⟩
      (_cache_set 2000 86400 []
        (_make_cache_key "Alice" "Hello" ["en", "fr"])
        ⟨"Alice", "Hello", pyStrip (pyStr (PyObj.pStr "unknown")),
          ordered_translations [("en", PyObj.pStr "Hi")] ["en", "fr"], none⟩
        0)
      rfl).2.2 "fr" (by decide) rfl

/-! ## C6: a malformed provider response fails and is never cached -/

/--
**C6.** When `json.loads` on the provider's raw response fails
(`providerParsed = none`) on a cache miss, `translate_core` raises
`json.JSONDecodeError` (src/app.py:235): the result is that error, the cache
(as left behind by the raising call) holds no entry under the request's
fingerprint, and the `/translate` route surfaces the error as the dedicated
HTTP 500 response (src/app.py:287-291), likewise without caching anything
under the fingerprint.
-/
theorem malformed_provider_not_cached (apiKeyS : String) (now : ℚ) (ttl : Int)
    (maxItems : Nat) (cache : CacheState Payload) (author text : String)
    (L : List String) (ilt : Bool) (textIn : String)
    (hk : apiKeyS ≠ "")
    (hmiss : (_cache_get cache (_make_cache_key author text L) now).1 = none)
    (htext : ¬ pyStrip textIn = "")
    (hmiss2 : (_cache_get cache
      (_make_cache_key author (pyStrip textIn) DEFAULT_LANGS) now).1 = none) :
    translate_core (some apiKeyS) now ttl maxItems cache author text L ilt
        none =
      (.error .jsonDecodeError,
        (_cache_get cache (_make_cache_key author text L) now).2) ∧
    dictFind? (_cache_get cache (_make_cache_key author text L) now).2
      (_make_cache_key author text L) = none ∧
    translate_route (some apiKeyS) now ttl maxItems cache (some author)
        (some textIn) none none none =
      ((500, .errJson),
        (_cache_get cache
          (_make_cache_key author (pyStrip textIn) DEFAULT_LANGS) now).2) ∧
    dictFind?
      (_cache_get cache
        (_make_cache_key author (pyStrip textIn) DEFAULT_LANGS) now).2
      (_make_cache_key author (pyStrip textIn) DEFAULT_LANGS) = none := by
  have hcore : translate_core (some apiKeyS) now ttl maxItems cache author
      (pyStrip textIn) DEFAULT_LANGS true none =
      (.error .jsonDecodeError,
        (_cache_get cache
          (_make_cache_key author (pyStrip textIn) DEFAULT_LANGS) now).2) := by
    rw [translate_core_of_miss apiKeyS now ttl maxItems cache author
      (pyStrip textIn) DEFAULT_LANGS true none hk hmiss2]
    rfl
  refine ⟨?_, cache_get_miss_find_none _ _ _ hmiss, ?_,
    cache_get_miss_find_none _ _ _ hmiss2⟩
  · rw [translate_core_of_miss apiKeyS now ttl maxItems cache author text L
      ilt none hk hmiss]
    rfl
  · simp only [translate_route, Option.getD_some, Option.getD_none,
      if_neg htext, route_langs_none, pyTruthy, hcore]

/-- Witness for C6 at a concrete request against an empty cache. -/
theorem malformed_provider_not_cached_witness :
    translate_route (some "k") 0 86400 2000 [] (some "A") (some "hi") none
        none none =
      ((500, .errJson),
        (_cache_get ([] : CacheState Payload)
          (_make_cache_key "A" (pyStrip "hi") DEFAULT_LANGS) 0).2) :=
  (malformed_provider_not_cached "k" 0 86400 2000 [] "A" "hi" ["fr"] true "hi"
    (by decide) rfl (by decide) rfl).2.2.1

/-! ## C8: the route's target-language handling -/

/--
**C8 counterexample.** The `/translate` route (src/app.py:277-281) does not
lowercase target-language codes: a requested `"EN"` stays `"EN"` in the
effective list (only `str.strip()` is applied).
-/
theorem route_languages_not_lowercased_cex :
    route_langs (some (.pList [.pStr "EN"])) = some ["EN"] ∧
    ("EN" : String) ≠ "en" := by
  constructor
  · decide
  · decide

theorem asStrList_map_pStr (L : List String) :
    asStrList (.pList (L.map .pStr)) = some L := by
  show asStrList.goStrList (L.map .pStr) = some L
  induction L with
  | nil => rfl
  | cons x rest ih => simp [asStrList.goStrList, ih]

/-- The comprehension's guard `if x and x.strip()` (src/app.py:279) keeps
exactly the elements that strip to nonempty (`x` truthy is implied by
`x.strip()` truthy, since `"".strip()` is `""`): `stripLangs` drops the
elements that are empty after trimming and trims the rest, keeping order
and duplicates. -/
theorem stripLangs_eq (M : List String) :
    stripLangs M = (M.filter (fun x => !(pyStrip x == ""))).map pyStrip := by
  unfold stripLangs
  congr 1
  apply List.filter_congr
  intro x _
  by_cases hxe : x = ""
  · subst hxe
    decide
  · have hb : (x == "") = false := by simpa using hxe
    rw [hb]
    simp

/-- The route's effective languages for a nonempty list-of-strings field:
drop the elements that strip to empty, trim the rest, and fall back to
`DEFAULT_LANGS` when nothing survives (src/app.py:271, 277-281). -/
theorem route_langs_pStr_list (M : List String) (hM : M ≠ []) :
    route_langs (some (.pList (M.map .pStr))) =
      some (if ((M.filter (fun x => !(pyStrip x == ""))).map pyStrip).isEmpty
        then DEFAULT_LANGS
        else (M.filter (fun x => !(pyStrip x == ""))).map pyStrip) := by
  have htruthy : pyTruthy (.pList (M.map .pStr)) = true := by
    cases M with
    | nil => exact absurd rfl hM
    | cons x rest => simp [pyTruthy]
  simp only [route_langs, htruthy, if_true, asStrList_map_pStr, stripLangs_eq]

/--
**C8 (amended).** Each element of the effective target-language list is
whitespace-trimmed (case preserved, no lowercasing); the list stays
order-preserving and keeps duplicates (it is `L.map pyStrip` when no element
strips to empty); elements that strip to empty are dropped (in general the
effective list is the strip-to-nonempty elements, trimmed, in order); and the
configured default list is used when the field is absent, an empty list, or
everything was dropped (src/app.py:271, 277-281).
-/
theorem route_languages_strip_fallback (L : List String) (hne : L ≠ [])
    (hall : ∀ x ∈ L, ¬ pyStrip x = "") :
    route_langs (some (.pList (L.map .pStr))) = some (L.map pyStrip) ∧
    route_langs none = some DEFAULT_LANGS ∧
    route_langs (some (.pList [])) = some DEFAULT_LANGS ∧
    (∀ M : List String, M ≠ [] →
      route_langs (some (.pList (M.map .pStr))) =
        some (if ((M.filter (fun x => !(pyStrip x == ""))).map pyStrip).isEmpty
          then DEFAULT_LANGS
          else (M.filter (fun x => !(pyStrip x == ""))).map pyStrip)) ∧
    (∀ M : List String, M ≠ [] → (∀ x ∈ M, pyStrip x = "") →
      route_langs (some (.pList (M.map .pStr))) = some DEFAULT_LANGS) := by
  refine ⟨?_, by decide, by decide, fun M hM => route_langs_pStr_list M hM, ?_⟩
  · rw [route_langs_pStr_list L hne]
    have hfil : L.filter (fun x => !(pyStrip x == "")) = L := by
      apply List.filter_eq_self.mpr
      intro x hx
      simpa using hall x hx
    rw [hfil]
    have hmape : (L.map pyStrip).isEmpty = false := by
      cases L with
      | nil => exact absurd rfl hne
      | cons x rest => simp
    rw [hmape]
    simp
  · intro M hM hallE
    rw [route_langs_pStr_list M hM]
    have hfil : M.filter (fun x => !(pyStrip x == "")) = [] := by
      apply List.filter_eq_nil_iff.mpr
      intro x hx
      simp [hallE x hx]
    rw [hfil]
    simp

/-- Witness for the amended C8: `["EN", " fr "]` becomes `["EN", "fr"]` —
trimmed, order kept, case untouched — and a list whose every element strips
to empty (`[" ", "\t"]`) falls back to the default list. -/
theorem route_languages_strip_fallback_witness :
    route_langs (some (.pList [PyObj.pStr "EN", PyObj.pStr " fr "])) =
      some (["EN", " fr "].map pyStrip) ∧
    route_langs (some (.pList [PyObj.pStr " ", PyObj.pStr "\t"])) =
      some DEFAULT_LANGS :=
  ⟨(route_languages_strip_fallback ["EN", " fr "] (by decide) (by decide)).1,
   (route_languages_strip_fallback ["EN"] (by decide) (by decide)).2.2.2.2
     [" ", "\t"] (by decide) (by decide)⟩

/-! ## C9: translation values are trimmed, markdown is not stripped -/

/--
**C9 counterexample.** The value placed in the result for each requested code
is `str(...).strip()` of the provider's value (src/app.py:239): surrounding
whitespace is trimmed but bold markers (and any other markdown) survive —
`" **Salut** "` becomes `"**Salut**"`, not `"Salut"`.
-/
theorem markdown_not_stripped_cex :
    (translate_core (some "k") 0 86400 2000 [] "A" "hi" ["fr"] false
        (some (.pDict [("detected_language", .pStr "fr"),
          ("translations", .pDict [("fr", .pStr " **Salut** ")])]))).1 =
      .ok ⟨"A", "hi", "fr", [("fr", "**Salut**")], none⟩ ∧
    ("**Salut**" : String) ≠ "Salut" := by
  constructor
  · rfl
  · decide

/--
**C9 (amended).** Each value in the result's translations mapping is the
provider's value after `str(...)` coercion and whitespace trim only; no
markdown-artifact stripping is performed (src/app.py:239).
-/
theorem translation_values_trim_only (tentries : List (String × PyObj))
    (L : List String) (hnd : L.Nodup) (lang : String) (hmem : lang ∈ L)
    (v : PyObj) (hv : dictFind? tentries lang = some v) :
    dictFind? (ordered_translations tentries L) lang =
      some (pyStrip (pyStr v)) := by
  rw [ordered_translations_find tentries L hnd lang hmem, hv]
  rfl

/-- Witness for the amended C9 at the bold-marker value. -/
theorem translation_values_trim_only_witness :
    dictFind? (ordered_translations [("fr", PyObj.pStr " **Salut** ")] ["fr"])
        "fr" = some (pyStrip (pyStr (PyObj.pStr " **Salut** "))) :=
  translation_values_trim_only [("fr", PyObj.pStr " **Salut** ")] ["fr"]
    (by decide) "fr" (by decide) (PyObj.pStr " **Salut** ") rfl

/-! ## C10: outbound reply truncation and missing-credential failure -/

/--
**C10.** `reply_to_line` (src/app.py:161-180): when the access token is
absent or empty, or the reply token is empty, it returns failure with no
outbound call; when a call is made, its message text is exactly the first
4900 code points of the reply text (`text[:4900]`, src/app.py:173) — in
particular at most 4900 characters and a leading segment of the text.
-/
theorem reply_truncation_and_failure (accessToken : Option String)
    (reply_token text : String) (sendOk : Bool) :
    ((accessToken.getD "" = "" ∨ reply_token = "") →
      reply_to_line accessToken reply_token text sendOk = (none, false)) ∧
    (∀ call : LineReply,
      (reply_to_line accessToken reply_token text sendOk).1 = some call →
      call.messageText = pyTake 4900 text ∧
      call.messageText.length ≤ 4900 ∧
      ∃ rest : List Char, text.data = call.messageText.data ++ rest) := by
  constructor
  · intro h
    unfold reply_to_line
    rw [if_pos h]
  · intro call h
    unfold reply_to_line at h
    by_cases hc : accessToken.getD "" = "" ∨ reply_token = ""
    · rw [if_pos hc] at h
      exact absurd h (by simp)
    · rw [if_neg hc] at h
      simp only at h
      have hcall : call = ⟨reply_token, pyTake 4900 text⟩ :=
        (Option.some.inj h).symm
      subst hcall
      refine ⟨rfl, ?_, ?_⟩
      · show (text.data.take 4900).length ≤ 4900
        rw [List.length_take]
        exact min_le_left _ _
      · exact ⟨text.data.drop 4900, (List.take_append_drop 4900 text.data).symm⟩

/-- Witness for C10: missing token fails with no call; a real call carries at
most 4900 characters. -/
theorem reply_truncation_and_failure_witness :
    reply_to_line none "r" "hello" true = (none, false) ∧
    (pyTake 4900 "hello").length ≤ 4900 :=
  ⟨(reply_truncation_and_failure none "r" "hello" true).1 (Or.inl rfl),
   ((reply_truncation_and_failure (some "tok") "r" "hello" true).2
     ⟨"r", pyTake 4900 "hello"⟩ rfl).2.1⟩

/-! ## C4: the fingerprint `_make_cache_key` -/

theorem hexVal_nibbleHex : ∀ k, k < 16 → hexVal (nibbleHex k) = k := by
  decide

theorem jsonEscList_cons (c : Char) (cs : List Char) :
    jsonEscList (c :: cs) = jsonEscChar c ++ jsonEscList cs := rfl

theorem parseJStrBody_roundtrip (cs rest : List Char) :
    parseJStrBody (jsonEscList cs ++ '"' :: rest) = some (cs, rest) := by
  induction cs with
  | nil =>
    show parseJStrBody ('"' :: rest) = some ([], rest)
    rw [parseJStrBody.eq_def]
    simp
  | cons c cs ih =>
    rw [jsonEscList_cons, List.append_assoc]
    by_cases h1 : c = '"'
    · subst h1
      show parseJStrBody ('\\' :: '"' :: (jsonEscList cs ++ '"' :: rest)) = _
      rw [parseJStrBody.eq_def]
      simp [unescSimple, ih]
    by_cases h2 : c = '\\'
    · subst h2
      show parseJStrBody ('\\' :: '\\' :: (jsonEscList cs ++ '"' :: rest)) = _
      rw [parseJStrBody.eq_def]
      simp [unescSimple, ih]
    by_cases h3 : c = '\n'
    · subst h3
      show parseJStrBody ('\\' :: 'n' :: (jsonEscList cs ++ '"' :: rest)) = _
      rw [parseJStrBody.eq_def]
      simp [unescSimple, ih]
    by_cases h4 : c = '\r'
    · subst h4
      show parseJStrBody ('\\' :: 'r' :: (jsonEscList cs ++ '"' :: rest)) = _
      rw [parseJStrBody.eq_def]
      simp [unescSimple, ih]
    by_cases h5 : c = '\t'
    · subst h5
      show parseJStrBody ('\\' :: 't' :: (jsonEscList cs ++ '"' :: rest)) = _
      rw [parseJStrBody.eq_def]
      simp [unescSimple, ih]
    by_cases h6 : c = '\x08'
    · subst h6
      show parseJStrBody ('\\' :: 'b' :: (jsonEscList cs ++ '"' :: rest)) = _
      rw [parseJStrBody.eq_def]
      simp [unescSimple, ih]
    by_cases h7 : c = '\x0c'
    · subst h7
      show parseJStrBody ('\\' :: 'f' :: (jsonEscList cs ++ '"' :: rest)) = _
      rw [parseJStrBody.eq_def]
      simp [unescSimple, ih]
    by_cases h8 : c.toNat < 32
    · -- the \u00XX escape
      have hd1 : c.toNat / 16 < 16 := by omega
      have hd2 : c.toNat % 16 < 16 := by omega
      have hE : ((hexVal '0' * 16 + hexVal '0') * 16 + c.toNat / 16) * 16 +
          c.toNat % 16 = c.toNat := by
        have h0 : hexVal '0' = 0 := rfl
        rw [h0]
        omega
      have hesc : jsonEscChar c = ['\\', 'u', '0', '0',
          nibbleHex (c.toNat / 16), nibbleHex (c.toNat % 16)] := by
        unfold jsonEscChar
        rw [if_neg h1, if_neg h2, if_neg h3, if_neg h4, if_neg h5, if_neg h6,
          if_neg h7, if_pos h8]
      rw [hesc]
      simp only [List.cons_append, List.nil_append]
      rw [parseJStrBody.eq_def]
      simp [ih, hexVal_nibbleHex _ hd1, hexVal_nibbleHex _ hd2, hE]
    · -- plain character
      have hesc : jsonEscChar c = [c] := by
        unfold jsonEscChar
        rw [if_neg h1, if_neg h2, if_neg h3, if_neg h4, if_neg h5, if_neg h6,
          if_neg h7, if_neg h8]
      rw [hesc]
      simp only [List.cons_append, List.nil_append]
      rw [parseJStrBody.eq_def]
      simp [h1, h2, ih]

theorem parseJsonStrTok_roundtrip (s : String) (rest : List Char) :
    parseJsonStrTok (jsonStrChars s ++ rest) = some (s, rest) := by
  show parseJsonStrTok ('"' :: ((jsonEscList s.data ++ ['"']) ++ rest)) = _
  rw [List.append_assoc]
  simp only [List.cons_append, List.nil_append]
  rw [parseJsonStrTok.eq_def]
  simp [parseJStrBody_roundtrip s.data rest]

theorem parseJListAux_roundtrip (L : List String) (x : String) :
    ∀ (rest : List Char) (fuel : Nat), (x :: L).length ≤ fuel →
    parseJListAux fuel (jsonListBodyChars (x :: L) ++ ']' :: rest) =
      some (x :: L, rest) := by
  induction L generalizing x with
  | nil =>
    intro rest fuel hfuel
    cases fuel with
    | zero => simp at hfuel
    | succ fuel =>
      show parseJListAux (fuel + 1) (jsonStrChars x ++ ']' :: rest) = _
      rw [parseJListAux.eq_def]
      simp [parseJsonStrTok_roundtrip x (']' :: rest)]
  | cons y L ih =>
    intro rest fuel hfuel
    cases fuel with
    | zero => simp at hfuel
    | succ fuel =>
      show parseJListAux (fuel + 1)
        ((jsonStrChars x ++ ',' :: ' ' :: jsonListBodyChars (y :: L)) ++
          ']' :: rest) = _
      rw [List.append_assoc]
      simp only [List.cons_append]
      rw [parseJListAux.eq_def]
      simp [parseJsonStrTok_roundtrip x
          (',' :: ' ' :: (jsonListBodyChars (y :: L) ++ ']' :: rest)),
        ih y rest fuel (by simpa using Nat.le_of_succ_le_succ hfuel)]

theorem length_jsonStrChars_pos (x : String) : 0 < (jsonStrChars x).length := by
  simp [jsonStrChars]

theorem length_jsonListBody_ge (L : List String) :
    L.length ≤ (jsonListBodyChars L).length := by
  induction L with
  | nil => simp [jsonListBodyChars]
  | cons x L ih =>
    cases L with
    | nil =>
      show 1 ≤ (jsonStrChars x).length
      exact length_jsonStrChars_pos x
    | cons y L' =>
      show (x :: y :: L').length ≤
        (jsonStrChars x ++ ',' :: ' ' :: jsonListBodyChars (y :: L')).length
      have h1 := length_jsonStrChars_pos x
      have h2 : (y :: L').length ≤ (jsonListBodyChars (y :: L')).length := ih
      simp only [List.length_append, List.length_cons] at *
      omega

theorem parseJList_roundtrip (L : List String) (rest : List Char) :
    parseJList (jsonListBodyChars L ++ ']' :: rest) = some (L, rest) := by
  cases L with
  | nil =>
    show parseJList (']' :: rest) = some ([], rest)
    rw [parseJList.eq_def]
    simp
  | cons x L' =>
    obtain ⟨S, hS⟩ : ∃ S, jsonListBodyChars (x :: L') = jsonStrChars x ++ S := by
      cases L' with
      | nil => exact ⟨[], by simp [jsonListBodyChars]⟩
      | cons y L'' => exact ⟨_, rfl⟩
    have hlen : (x :: L').length ≤
        (jsonListBodyChars (x :: L') ++ ']' :: rest).length := by
      have h1 := length_jsonListBody_ge (x :: L')
      simp only [List.length_append, List.length_cons] at h1 ⊢
      omega
    have hcons : jsonListBodyChars (x :: L') ++ ']' :: rest =
        '"' :: ((jsonEscList x.data ++ ['"']) ++ (S ++ ']' :: rest)) := by
      rw [hS, List.append_assoc]
      rfl
    rw [hcons]
    show (if ('"' : Char) = ']' then
        some (([] : List String),
          (jsonEscList x.data ++ ['"']) ++ (S ++ ']' :: rest))
      else parseJListAux
        ('"' :: ((jsonEscList x.data ++ ['"']) ++ (S ++ ']' :: rest))).length
        ('"' :: ((jsonEscList x.data ++ ['"']) ++ (S ++ ']' :: rest)))) =
      some (x :: L', rest)
    rw [if_neg (by decide : ¬ ('"' : Char) = ']')]
    rw [← hcons]
    exact parseJListAux_roundtrip L' x rest _ hlen

theorem dropPrefixChars_append (p l : List Char) :
    dropPrefixChars p (p ++ l) = some l := by
  induction p with
  | nil => rfl
  | cons c ps ih => simp [dropPrefixChars, ih]

theorem decodeCanonical_roundtrip (a t : String) (L : List String) :
    decodeCanonical (canonicalChars a t L) = some (a, L, t) := by
  simp [decodeCanonical, canonicalChars, dropPrefixChars,
    parseJsonStrTok_roundtrip, parseJList_roundtrip]

/--
**C4 (amended).** The fingerprint is deterministic (a pure function of the
triple), and distinct `(author, text, orderedLanguages)` triples — distinct
authors, distinct texts, or differently-ordered language lists — always
produce distinct canonical serializations, i.e. distinct inputs to the
SHA-256 hash of `_make_cache_key` (src/app.py:35-41).  Distinct fingerprints
then follow except on SHA-256 collisions, which exist in principle (see the
counterexample) but are computationally infeasible to exhibit.
-/
theorem fingerprint_deterministic_serialization_injective
    (a t : String) (L : List String) (a' t' : String) (L' : List String) :
    _make_cache_key a t L = _make_cache_key a t L ∧
    (canonicalJson a t L = canonicalJson a' t' L' →
      a = a' ∧ t = t' ∧ L = L') := by
  refine ⟨rfl, fun h => ?_⟩
  have hc : decodeCanonical (canonicalChars a t L) =
      decodeCanonical (canonicalChars a' t' L') := by
    have hd : canonicalChars a t L = canonicalChars a' t' L' :=
      congrArg String.data h
    rw [hd]
  rw [decodeCanonical_roundtrip, decodeCanonical_roundtrip] at hc
  simp only [Option.some.injEq, Prod.mk.injEq] at hc
  exact ⟨hc.1, hc.2.2, hc.2.1⟩

/-- Witness for the amended C4 at a concrete triple. -/
theorem fingerprint_deterministic_serialization_injective_witness :
    _make_cache_key "Alice" "Hello" ["fr"] =
      _make_cache_key "Alice" "Hello" ["fr"] ∧
    ("Alice" : String) = "Alice" :=
  ⟨(fingerprint_deterministic_serialization_injective "Alice" "Hello" ["fr"]
      "Alice" "Hello" ["fr"]).1,
   ((fingerprint_deterministic_serialization_injective "Alice" "Hello" ["fr"]
      "Alice" "Hello" ["fr"]).2 rfl).1⟩

theorem wordBytes_lt (w : Nat) : ∀ b ∈ wordBytes w, b < 256 := by
  intro b hb
  simp [wordBytes] at hb
  rcases hb with hb | hb | hb | hb <;> omega

theorem digestBytes_length (st : HState) : (digestBytes st).length = 32 := by
  simp [digestBytes, wordBytes]

theorem digestBytes_lt (st : HState) : ∀ b ∈ digestBytes st, b < 256 := by
  intro b hb
  simp only [digestBytes, List.mem_append, or_assoc] at hb
  rcases hb with hb | hb | hb | hb | hb | hb | hb | hb <;>
    exact wordBytes_lt _ b hb

theorem sha256Bytes_length (msg : List Nat) : (sha256Bytes msg).length = 32 :=
  digestBytes_length _

theorem sha256Bytes_lt (msg : List Nat) : ∀ b ∈ sha256Bytes msg, b < 256 :=
  digestBytes_lt _

theorem ofDigits_lt_pow (l : List Nat) (h : ∀ b ∈ l, b < 256) :
    Nat.ofDigits 256 l < 256 ^ l.length := by
  induction l with
  | nil => simp [Nat.ofDigits_nil]
  | cons b l ih =>
    have hb : b < 256 := h b (List.mem_cons_self b l)
    have hl := ih (fun x hx => h x (List.mem_cons_of_mem b hx))
    rw [Nat.ofDigits_cons, List.length_cons, pow_succ]
    generalize hgen : (256 : Nat) ^ l.length = e at hl ⊢
    omega

theorem ofDigits_inj_of_lt : ∀ l1 l2 : List Nat, l1.length = l2.length →
    (∀ b ∈ l1, b < 256) → (∀ b ∈ l2, b < 256) →
    Nat.ofDigits 256 l1 = Nat.ofDigits 256 l2 → l1 = l2 := by
  intro l1
  induction l1 with
  | nil =>
    intro l2 hlen _ _ _
    cases l2 with
    | nil => rfl
    | cons b l => simp at hlen
  | cons b l ih =>
    intro l2 hlen h1 h2 heq
    cases l2 with
    | nil => simp at hlen
    | cons b' l' =>
      rw [Nat.ofDigits_cons, Nat.ofDigits_cons] at heq
      have hb : b < 256 := h1 b (List.mem_cons_self _ _)
      have hb' : b' < 256 := h2 b' (List.mem_cons_self _ _)
      have hbe : b = b' := by omega
      have hte : Nat.ofDigits 256 l = Nat.ofDigits 256 l' := by omega
      subst hbe
      rw [ih l' (by simpa using hlen)
        (fun x hx => h1 x (List.mem_cons_of_mem _ hx))
        (fun x hx => h2 x (List.mem_cons_of_mem _ hx)) hte]

/--
**C4 counterexample.** The claim "changing the author yields a different
fingerprint", read as a universal statement, is false in principle: the
fingerprint is a SHA-256 hex digest, whose range has at most `256^32`
values, while there are more than `256^32` distinct authors; by the
pigeonhole principle some two distinct authors (here, among the repeat-`'a'`
strings of lengths `0..256^32`) share a fingerprint for the same text and
language list.  (No such collision is explicitly computable — this is why the
amended claim speaks of the serialized hash input instead.)
-/
theorem fingerprint_not_injective :
    ¬ (∀ (a a' t : String) (L : List String), a ≠ a' →
        _make_cache_key a t L ≠ _make_cache_key a' t L) := by
  intro h
  have hmaps : ∀ n ∈ Finset.range (256 ^ 32 + 1),
      (fun n => Nat.ofDigits 256 (sha256Bytes (utf8Encode (canonicalJson
        (String.mk (List.replicate n 'a')) "t" ["en"])))) n ∈
        Finset.range (256 ^ 32) := by
    intro n _
    rw [Finset.mem_range]
    have hlt := ofDigits_lt_pow _ (sha256Bytes_lt (utf8Encode (canonicalJson
      (String.mk (List.replicate n 'a')) "t" ["en"])))
    rwa [sha256Bytes_length] at hlt
  have hcard : (Finset.range (256 ^ 32)).card <
      (Finset.range (256 ^ 32 + 1)).card := by simp
  obtain ⟨m, hm, n, hn, hmn, hFeq⟩ :=
    Finset.exists_ne_map_eq_of_card_lt_of_maps_to hcard hmaps
  have hbytes : sha256Bytes (utf8Encode (canonicalJson
      (String.mk (List.replicate m 'a')) "t" ["en"])) =
      sha256Bytes (utf8Encode (canonicalJson
        (String.mk (List.replicate n 'a')) "t" ["en"])) :=
    ofDigits_inj_of_lt _ _ (by rw [sha256Bytes_length, sha256Bytes_length])
      (sha256Bytes_lt _) (sha256Bytes_lt _) hFeq
  have hne : String.mk (List.replicate m 'a') ≠
      String.mk (List.replicate n 'a') := by
    intro he
    apply hmn
    have hd : List.replicate m 'a' = List.replicate n 'a' :=
      congrArg String.data he
    have := congrArg List.length hd
    simpa using this
  exact h _ _ "t" ["en"] hne (by unfold _make_cache_key; rw [hbytes])

end MultilangTranslator
